import Mathlib

/-!
Verification development for the iHSV Servo Tool core
(src/iHSV-Servo-Tool.py).

The Python source is shallowly embedded below.  Machine integers are
modelled as Nat/Int.  Python binary64 floats are modelled exactly as
dyadic rationals (mantissa times a power of two) with explicit
round-to-nearest-even at every arithmetic operation, matching IEEE 754
semantics of CPython float division and multiplication.  Fallible code
returns Except/Option.
-/

/-! ## Integer utilities for the binary64 float model -/

/-- Fuel-driven floor of log2.  With fuel f it is exact for n < 2^f. -/
def log2floorFuel : ℕ → ℕ → ℕ
  | 0, _ => 0
  | f + 1, n => if n ≤ 1 then 0 else log2floorFuel f (n / 2) + 1

/-- Floor of log2 of n (0 for n = 0).  Exact for n < 2^128, far above every
quantity arising in this development. -/
def log2floor (n : ℕ) : ℕ := log2floorFuel 128 n

/-- Round the nonnegative rational a / b (b > 0) to the nearest natural
number, ties to even: the rounding used by IEEE 754 binary64. -/
def rndNat (a b : ℕ) : ℕ :=
  let q := a / b
  let r := a % b
  if 2 * r < b then q
  else if b < 2 * r then q + 1
  else if q % 2 = 0 then q else q + 1

/-- Does a / b ≥ 2^e hold?  (b > 0; exponent e may be negative.) -/
def geTwoPow (a b : ℕ) (e : ℤ) : Bool :=
  if 0 ≤ e then b * 2 ^ e.toNat ≤ a else b ≤ a * 2 ^ (-e).toNat

/-- Binary64 rounding of the nonnegative rational a / b (b > 0): returns the
pair (m, e) with the rounded value equal to m * 2^e, m the 53-bit mantissa.
This is the exact result of a correctly rounded IEEE 754 division, which is
what CPython computes for a / b on floats (round to nearest, ties to even;
our magnitudes are far from overflow and subnormals). -/
def divFloat (a b : ℕ) : ℕ × ℤ :=
  let la : ℤ := log2floor a
  let lb : ℤ := log2floor b
  let e0 : ℤ := if geTwoPow a b (la - lb) then la - lb else la - lb - 1
  let s : ℤ := 52 - e0
  let m := if 0 ≤ s then rndNat (a * 2 ^ s.toNat) b else rndNat a (b * 2 ^ (-s).toNat)
  (m, e0 - 52)

/-- Binary64 rounding of the product (m * 2^e) * 10^d, for a nonnegative
binary64 value m * 2^e: the exact integer product m * 10^d is rounded back
to a 53-bit mantissa (round to nearest, ties to even), which is precisely a
correctly rounded IEEE 754 multiplication as performed by CPython for
float * int. -/
def mulPow10Float (m : ℕ) (e : ℤ) (d : ℕ) : ℕ × ℤ :=
  let M := m * 10 ^ d
  let k := log2floor M
  if k ≤ 52 then (M, e) else (rndNat M (2 ^ (k - 52)), e + (k - 52))

/-- Floor of the nonnegative dyadic value m * 2^e.  For nonnegative values
this is exactly Python int() truncation. -/
def truncDyadic (m : ℕ) (e : ℤ) : ℕ :=
  if 0 ≤ e then m * 2 ^ e.toNat else m / 2 ^ (-e).toNat

/-- Nearest integer to the nonnegative dyadic value m * 2^e (ties to even):
what Python round() would return on the same value. -/
def nearestDyadic (m : ℕ) (e : ℤ) : ℕ :=
  if 0 ≤ e then m * 2 ^ e.toNat else rndNat m (2 ^ (-e).toNat)

/-! ## Register codec (src lines 363-381 and 414-442) -/

/-- The read-then-write decimal round trip of a raw register value n with
decimalPlaces d, exactly as the code performs it.

readParams (lines 373-380): for d = 0 the table cell holds the integer n
itself; for d ≥ 1 the code computes the Python float n / 10^d and the cell
holds its shortest repr, which parses back to the identical float.

writeParams (lines 420-425): for d = 0 the cell text is converted with
int(text); for d ≥ 1 the code computes float(text) * 10^d and truncates
with int(), i.e. toward zero. -/
def readWriteRoundTrip (n : ℤ) (d : ℕ) : ℤ :=
  if d = 0 then n
  else
    let a := n.natAbs
    let p := divFloat a (10 ^ d)
    let p2 := mulPow10Float p.1 p.2 d
    let t : ℤ := truncDyadic p2.1 p2.2
    if n < 0 then -t else t

/-- The same pipeline but with round() in place of the code's int()
truncation at the final step (the rounding the spec prescribes for
unscale). -/
def readWriteRoundTripRounded (n : ℤ) (d : ℕ) : ℤ :=
  if d = 0 then n
  else
    let a := n.natAbs
    let p := divFloat a (10 ^ d)
    let p2 := mulPow10Float p.1 p.2 d
    let t : ℤ := nearestDyadic p2.1 p2.2
    if n < 0 then -t else t

/-- Sign decoding of a 16-bit register word (appendData lines 118-121 and
readParams lines 369-371): when signed and bit 15 is set, the two's
complement value raw - 65536 is produced, else raw unchanged. -/
def decode16 (raw : ℕ) (signed : Bool) : ℤ :=
  if signed ∧ raw.testBit 15 then -((65536 : ℤ) - raw) else raw

/-- appendData value decoding (lines 113-123): two registers are combined
as (hi <<< 16) ||| lo and decoded as base-32-bit two's complement without
consulting the signed flag; a single register is decoded via the signed
flag.  An empty register list would raise IndexError in Python, modelled
as none. -/
def decodeRawValues (rawValues : List ℕ) (signed : Bool) : Option ℤ :=
  match rawValues with
  | hi :: lo :: [] =>
    let value := (hi <<< 16) ||| lo
    some (if value.testBit 31 then -((4294967296 : ℤ) - value) else (value : ℤ))
  | v :: _ => some (decode16 v signed)
  | [] => none

instance {ε α : Type _} [DecidableEq ε] [DecidableEq α] : DecidableEq (Except ε α) := fun a b =>
  match a, b with
  | Except.ok x, Except.ok y =>
    if h : x = y then isTrue (by rw [h]) else isFalse (by simp [h])
  | Except.error x, Except.error y =>
    if h : x = y then isTrue (by rw [h]) else isFalse (by simp [h])
  | Except.ok _, Except.error _ => isFalse (by simp)
  | Except.error _, Except.ok _ => isFalse (by simp)

/-- Conversion of an unscaled integer to the 16-bit word passed to the
transport (writeParams lines 434-438): negative values become
65536 + value; the transport layer (minimalmodbus write_register)
validates the resulting word against [0, 65535] and raises before any
bus traffic when it is out of range. -/
def toWriteWord (v : ℤ) : Except Unit ℕ :=
  let w : ℤ := if v < 0 then 65536 + v else v
  if 0 ≤ w ∧ w ≤ 65535 then Except.ok w.toNat else Except.error ()

/-- A device operation observable on the serial bus. -/
inductive DevOp where
  | readOp (addr : ℕ)
  | writeOp (addr : ℕ) (value : ℕ)
deriving DecidableEq

/-- Device traffic of one writeParams invocation (lines 430-442): the word
is written to address ||| 0x8000 and the very same OR'd address is then
read back once.  A RangeError from the word conversion produces no device
operation at all. -/
def writeParamsDevice (addr : ℕ) (v : ℤ) : Except Unit (List DevOp) :=
  match toWriteWord v with
  | Except.error e => Except.error e
  | Except.ok w =>
    Except.ok [DevOp.writeOp (addr ||| 0x8000) w, DevOp.readOp (addr ||| 0x8000)]

/-- Result of one writeParams invocation executed against a device whose
read results are given by dev: line 441 performs the confirming read-back
and discards its value, so dev never influences the outcome. -/
def writeParamsRun (dev : ℕ → ℕ) (addr : ℕ) (v : ℤ) : Except Unit ℕ :=
  match toWriteWord v with
  | Except.error e => Except.error e
  | Except.ok w =>
    let _ := dev (addr ||| 0x8000)
    Except.ok w

/-- A catalog entry as consumed by readParams: the register address, the
catalog default value (its sign is the signedness hint) and the optional
decimal-place count. -/
structure CatalogParam where
  address : ℕ
  defaultNeg : Bool
  decimalPlace : Option ℕ
deriving DecidableEq

/-- Device traffic of readParams over a parameter list (lines 363-366):
one bare-address register read per parameter, no OR'd bit, no writes. -/
def readParamsOps (pars : List CatalogParam) : List DevOp :=
  pars.map (fun c => DevOp.readOp c.address)

/-! ## Channel buffer (appendData, src lines 125-137) -/

/-- The history update of ModBusDataCurveItem.appendData: an empty history
(yData is None) becomes the single new sample; while the length is at most
1000 the sample is appended; otherwise np.roll(yData, -1) shifts left and
the new sample overwrites the last slot, evicting the oldest. -/
def appendData (yData : List ℤ) (value : ℤ) : List ℤ :=
  if yData = [] then [value]
  else if yData.length ≤ 1000 then yData ++ [value]
  else yData.drop 1 ++ [value]

/-! ## Range aggregator (updateCurves, src lines 578-584) -/

/-- np.split of the sorted register list at every index where the
difference of adjacent entries exceeds 3 (the gap-tolerance-2 policy):
groups of consecutive entries whose gap to the predecessor is at most 3. -/
def splitGaps : List ℕ → List (List ℕ)
  | [] => []
  | [x] => [[x]]
  | x :: y :: rest =>
    match splitGaps (y :: rest) with
    | [] => [[x]]
    | g :: gs => if 3 < y - x then [x] :: g :: gs else (x :: g) :: gs

/-- Lines 578-584: sort the requested registers (duplicates kept, exactly
like Python sorted), split at gaps larger than 3, and emit each group as
the contiguous block (start, count) from its first to its last entry. -/
def aggregateRanges (regs : List ℕ) : List (ℕ × ℕ) :=
  let sortedRegs := List.insertionSort (· ≤ ·) regs
  (splitGaps sortedRegs).map (fun g => (g.headD 0, g.getLastD 0 + 1 - g.headD 0))

/-! ## Polling engine (updateCurves and startStopMonitor, src lines 569-614) -/

/-- A monitored channel: its registers, signedness, active flag and
history (pyqtgraph state other than yData is not part of the core). -/
structure Curve where
  registers : List ℕ
  signed : Bool
  active : Bool
  yData : List ℤ
deriving DecidableEq

/-- The aggregated ranges a tick would read for the active curves of the
given list (lines 572-584). -/
def tickRanges (curves : List Curve) : List (ℕ × ℕ) :=
  aggregateRanges ((curves.filter (fun c => c.active)).flatMap (fun c => c.registers))

/-- Line 589: one read_registers(start, count) bulk read per aggregated
range, zipped with the addresses of the range; any failing read aborts the
whole tick with the exception of line 598. -/
def readRanges (read : ℕ → ℕ → Except Unit (List ℕ)) :
    List (ℕ × ℕ) → Except Unit (List (ℕ × ℕ))
  | [] => Except.ok []
  | (s, c) :: rest =>
    match read s c with
    | Except.error e => Except.error e
    | Except.ok vals =>
      match readRanges read rest with
      | Except.error e => Except.error e
      | Except.ok tail => Except.ok (List.zip (List.range' s c) vals ++ tail)

/-- Dictionary lookup regs_values[reg] of line 596 for every register of a
curve; a missing key raises KeyError in Python, modelled as none. -/
def lookupValues (assoc : List (ℕ × ℕ)) : List ℕ → Option (List ℕ)
  | [] => some []
  | r :: rs =>
    match assoc.lookup r with
    | none => none
    | some v =>
      match lookupValues assoc rs with
      | none => none
      | some vs => some (v :: vs)

/-- The per-curve update loop of lines 595-597, processed in curve order
exactly like the Python dict iteration: an active curve gets its registers
looked up, decoded and appended; a lookup or decode exception stops the
loop, leaving the current and all later curves untouched (the handler of
line 598 swallows the exception). -/
def updateCurvesLoop (assoc : List (ℕ × ℕ)) : List Curve → List Curve
  | [] => []
  | c :: rest =>
    if c.active then
      match lookupValues assoc c.registers with
      | none => c :: rest
      | some vals =>
        match decodeRawValues vals c.signed with
        | none => c :: rest
        | some v => { c with yData := appendData c.yData v } :: updateCurvesLoop assoc rest
    else c :: updateCurvesLoop assoc rest

/-- One tick of MainWindow.updateCurves (lines 569-599) against a
connected device whose bulk reads are the function read: with no active
curve the tick returns at line 575 before any aggregation or device
traffic; a failed bulk read raises before any appendData call, the
except-handler of line 598 reports it, and every history is left exactly
as it was. -/
def updateCurves (read : ℕ → ℕ → Except Unit (List ℕ)) (curves : List Curve) : List Curve :=
  if (curves.filter (fun c => c.active)).isEmpty then curves
  else
    match readRanges read (tickRanges curves) with
    | Except.error _ => curves
    | Except.ok assoc => updateCurvesLoop assoc curves

/-- The polling engine state: the monitor timer (Polling vs Idle) and the
channel list. -/
structure Engine where
  polling : Bool
  curves : List Curve
deriving DecidableEq

/-- One 10 ms timer tick: updateCurves runs only while the monitor is
polling; nothing a tick does ever touches the timer. -/
def tick (read : ℕ → ℕ → Except Unit (List ℕ)) (e : Engine) : Engine :=
  if e.polling then { e with curves := updateCurves read e.curves } else e

/-- MainWindow.startStopMonitor (lines 601-614): toggles between Polling
and Idle; starting clears every curve with setData() (lines 609-610),
stopping only cancels the timer. -/
def startStopMonitor (e : Engine) : Engine :=
  if e.polling then { e with polling := false }
  else { polling := true, curves := e.curves.map (fun c => { c with yData := [] }) }

/-! ## Parameter file load (writeParamsFromXML, src lines 514-567) -/

/-- A Python float: the value is m * 2^e, negated when neg is set.  Every
binary64 float is exactly such a dyadic rational. -/
structure PyFloat where
  neg : Bool
  m : ℕ
  e : ℤ
deriving DecidableEq

/-- Python int() truncation toward zero of a float. -/
def pyFloatToInt (x : PyFloat) : ℤ :=
  let t : ℤ := truncDyadic x.m x.e
  if x.neg then -t else t

/-- The float multiplication value * 10^decimal of line 548 (correctly
rounded binary64 product). -/
def pyFloatScale (x : PyFloat) (d : ℕ) : PyFloat :=
  let p := mulPow10Float x.m x.e d
  { x with m := p.1, e := p.2 }

/-- One Parameter element of the XML file, with the parse results of the
text fields: a none in code/address/value stands for a missing element
(resp. for address/value also an unparsable text, where int()/float() of
line 540/541 would raise).  decimalPlace is some d exactly when a
decimal_place element is present and its text isdigit() (line 545). -/
structure ParamRecord where
  code : Option String
  address : Option ℕ
  value : Option PyFloat
  decimalPlace : Option ℕ
deriving DecidableEq

/-- The gains-only filter of lines 534-538: with the checkbox on, a record
is skipped when it has a Code element whose text is not in the
gain-relevant allow-list.  A record without a Code element is not
skipped. -/
def skipRecord (gainsOnly : Bool) (allow : List String) (p : ParamRecord) : Bool :=
  gainsOnly &&
    match p.code with
    | some c => !(allow.contains c)
    | none => false

/-- Scaling of the parsed value (lines 543-549): when a usable
decimal_place d ≠ 0 is present the float is multiplied by 10^d; the result
is then truncated with int(). -/
def xmlValueToInt (x : PyFloat) (decimalPlace : Option ℕ) : ℤ :=
  match decimalPlace with
  | some d => if d ≠ 0 then pyFloatToInt (pyFloatScale x d) else pyFloatToInt x
  | none => pyFloatToInt x

/-- The parsing of lines 540-541: int(Address text, 16) and float(Value
text).  A missing element or an unparsable text raises, modelled as none
(the Option components of ParamRecord already hold the per-field parse
results). -/
def parseRecord (p : ParamRecord) : Option (ℕ × PyFloat) :=
  match p.address, p.value with
  | some addr, some x => some (addr, x)
  | _, _ => none

/-- The 16-bit word finally passed to write_register for a parsed value
(lines 543-553): decimal scaling, int() truncation and the two's
complement conversion of negatives. -/
def xmlWord (x : PyFloat) (decimalPlace : Option ℕ) : ℤ :=
  let v := xmlValueToInt x decimalPlace
  if v < 0 then 65536 + v else v

/-- The write attempts of one XML group (lines 532-565), in order: each
record is filtered, parsed, scaled and two's-complement converted; the
try-block of lines 555-563 issues the device write (dev tells whether the
write and its read-back succeed; an out-of-range word makes the transport
raise inside the same try-block) and its except-handler reports the
failure and continues with the next record.  A parse failure (missing or
unparsable Address/Value) raises OUTSIDE the try-block, aborting the group
with the remaining records unprocessed: the Bool result tells whether the
group ran to completion.  Each attempt is recorded as (OR'd register,
converted word, success). -/
def processGroup (gainsOnly : Bool) (allow : List String) (dev : ℕ → ℤ → Bool) :
    List ParamRecord → List (ℕ × ℤ × Bool) × Bool
  | [] => ([], true)
  | p :: rest =>
    if skipRecord gainsOnly allow p then processGroup gainsOnly allow dev rest
    else
      match parseRecord p with
      | some (addr, x) =>
        let w := xmlWord x p.decimalPlace
        let reg := addr ||| 0x8000
        let ok := (decide (0 ≤ w ∧ w ≤ 65535)) && dev reg w
        let res := processGroup gainsOnly allow dev rest
        ((reg, w, ok) :: res.1, res.2)
      | none => ([], false)

/-- MainWindow.writeParamsFromXML over the parsed groups of the file: the
groups are processed in order; the exception of an aborted group
propagates out of the whole method, so no later group is processed
either.  (The optional progress-dialog cancellation is not modelled.) -/
def processXML (gainsOnly : Bool) (allow : List String) (dev : ℕ → ℤ → Bool) :
    List (List ParamRecord) → List (ℕ × ℤ × Bool) × Bool
  | [] => ([], true)
  | g :: gs =>
    let res := processGroup gainsOnly allow dev g
    if res.2 then
      let res2 := processXML gainsOnly allow dev gs
      (res.1 ++ res2.1, res2.2)
    else (res.1, false)

/-! ## Helper lemmas -/

lemma testBit15_eq {raw : ℕ} (h : raw < 65536) :
    raw.testBit 15 = decide (32768 ≤ raw) := by
  rw [Nat.testBit_to_div_mod, decide_eq_decide]
  have h15 : (2 : ℕ) ^ 15 = 32768 := by norm_num
  rw [h15]
  omega

lemma testBit31_eq {n : ℕ} (h : n < 4294967296) :
    n.testBit 31 = decide (2147483648 ≤ n) := by
  rw [Nat.testBit_to_div_mod, decide_eq_decide]
  have h31 : (2 : ℕ) ^ 31 = 2147483648 := by norm_num
  rw [h31]
  omega

lemma combine16 (hi lo : ℕ) (hlo : lo < 65536) :
    (hi <<< 16) ||| lo = 65536 * hi + lo := by
  have hpow : (65536 : ℕ) = 2 ^ 16 := by norm_num
  apply Nat.eq_of_testBit_eq
  intro i
  rw [Nat.testBit_lor, hpow,
    Nat.testBit_mul_pow_two_add hi (by rw [hpow] at hlo; exact hlo) i]
  by_cases hi16 : i < 16
  · have : ¬ (i ≥ 16) := by omega
    simp [Nat.testBit_shiftLeft, this, hi16]
  · have hge : i ≥ 16 := by omega
    have hlo2 : lo < 2 ^ i :=
      lt_of_lt_of_le (by rw [← hpow]; exact hlo) (Nat.pow_le_pow_right (by norm_num) hge)
    simp [Nat.testBit_shiftLeft, hge, hi16, Nat.testBit_lt_two_pow hlo2]

lemma testBit31_iff {n : ℕ} (h : n < 4294967296) :
    n.testBit 31 = true ↔ 2147483648 ≤ n := by
  rw [Nat.testBit_to_div_mod, decide_eq_true_eq]
  have h31 : (2 : ℕ) ^ 31 = 2147483648 := by norm_num
  rw [h31]
  omega

/-- Claim C9: for every 16-bit word raw, toWriteWord inverts the signed
16-bit decode: toWriteWord (decode16 raw true) = ok raw. -/
theorem c9_write_word_inverse (raw : ℕ) (h : raw < 65536) :
    toWriteWord (decode16 raw true) = Except.ok raw := by
  unfold decode16 toWriteWord
  rw [testBit15_eq h]
  split_ifs with h1 h2 h3 <;> simp_all <;> omega

theorem c9_witness :
    (65386 : ℕ) < 65536 ∧ toWriteWord (decode16 65386 true) = Except.ok 65386 :=
  ⟨by decide, c9_write_word_inverse 65386 (by decide)⟩

/-- Claim C10: a two-register channel is decoded as base-32-bit two's
complement regardless of the signed flag, the decoded value lies in
[-2^31, 2^31 - 1], and the flag does influence single-register decoding. -/
theorem c10_decode32_flag_independent (hi lo : ℕ) (s1 s2 : Bool)
    (h1 : hi < 65536) (h2 : lo < 65536) :
    decodeRawValues [hi, lo] s1 = decodeRawValues [hi, lo] s2 ∧
    (∀ v : ℤ, decodeRawValues [hi, lo] s1 = some v → -(2 ^ 31) ≤ v ∧ v < 2 ^ 31) ∧
    decodeRawValues [65386] true ≠ decodeRawValues [65386] false := by
  refine ⟨rfl, ?_, by decide⟩
  intro v hv
  have hlt : 65536 * hi + lo < 4294967296 := by omega
  have hp : (2 : ℤ) ^ 31 = 2147483648 := by norm_num
  rw [hp]
  simp only [decodeRawValues] at hv
  rw [combine16 hi lo h2] at hv
  by_cases hc : 2147483648 ≤ 65536 * hi + lo
  · rw [if_pos ((testBit31_iff hlt).mpr hc)] at hv
    simp only [Option.some.injEq] at hv
    omega
  · rw [if_neg (fun hb => hc ((testBit31_iff hlt).mp hb))] at hv
    simp only [Option.some.injEq] at hv
    omega

theorem c10_witness : -(2 ^ 31 : ℤ) ≤ -150 ∧ (-150 : ℤ) < 2 ^ 31 :=
  (c10_decode32_flag_independent 65535 65386 true true (by decide) (by decide)).2.1
    (-150) (by decide)

/-- Claim C6, amended: toWriteWord maps a negative value v to 65536 + v and
passes a non-negative value through, succeeding for every v in
[-65536, 65535]; it fails (with no device operation issued) exactly when
the converted word falls outside [0, 65535], i.e. when v is outside
[-65536, 65535] - not outside [-32768, 65535] as claimed. -/
theorem c6_write_word_range (v : ℤ) :
    (-65536 ≤ v → v ≤ 65535 →
      toWriteWord v = Except.ok (if v < 0 then (65536 + v).toNat else v.toNat)) ∧
    (v < -65536 ∨ 65535 < v → toWriteWord v = Except.error ()) ∧
    (∀ addr, toWriteWord v = Except.error () → writeParamsDevice addr v = Except.error ()) := by
  refine ⟨?_, ?_, ?_⟩
  · intro h1 h2
    unfold toWriteWord
    split_ifs with ha <;> simp_all <;> omega
  · intro h
    unfold toWriteWord
    split_ifs with ha <;> simp_all <;> omega
  · intro addr h
    unfold writeParamsDevice
    rw [h]

theorem c6_witness :
    toWriteWord (-150) = Except.ok 65386 ∧ toWriteWord 70000 = Except.error () := by
  constructor
  · have h := (c6_write_word_range (-150)).1 (by norm_num) (by norm_num)
    rw [h, if_pos (by norm_num)]
    rfl
  · exact (c6_write_word_range 70000).2.1 (by norm_num)

/-- Claim C6, counterexample: -33000 lies outside [-32768, 65535], yet the
code performs the write successfully with word 32536 instead of failing. -/
theorem c6_counterexample :
    (-33000 : ℤ) < -32768 ∧ toWriteWord (-33000) = Except.ok 32536 :=
  ⟨by decide, by decide⟩

/-- Claim C5: a parameter write issues exactly a write to address ||| 0x8000
followed by a confirming read of that same OR'd address; the read-back
result never influences the outcome; readParams traffic consists solely of
bare-address reads. -/
theorem c5_write_select_bit (addr : ℕ) (v : ℤ) (ops : List DevOp)
    (h : writeParamsDevice addr v = Except.ok ops) :
    (∃ w, toWriteWord v = Except.ok w ∧
      ops = [DevOp.writeOp (addr ||| 32768) w, DevOp.readOp (addr ||| 32768)]) ∧
    (∀ dev dev2 : ℕ → ℕ, writeParamsRun dev addr v = writeParamsRun dev2 addr v) ∧
    (∀ pars : List CatalogParam, ∀ op ∈ readParamsOps pars,
      ∃ c ∈ pars, op = DevOp.readOp c.address) := by
  refine ⟨?_, fun dev dev2 => rfl, ?_⟩
  · unfold writeParamsDevice at h
    cases htw : toWriteWord v with
    | error e => rw [htw] at h; exact absurd h (by simp)
    | ok w =>
      rw [htw] at h
      refine ⟨w, rfl, ?_⟩
      simpa using h.symm
  · intro pars op hop
    unfold readParamsOps at hop
    rcases List.mem_map.mp hop with ⟨c, hc, hceq⟩
    exact ⟨c, hc, hceq.symm⟩

theorem c5_witness :
    writeParamsDevice 64 (-150) =
      Except.ok [DevOp.writeOp 32832 65386, DevOp.readOp 32832] ∧
    (∃ w, toWriteWord (-150) = Except.ok w ∧
      [DevOp.writeOp 32832 65386, DevOp.readOp 32832] =
        [DevOp.writeOp (64 ||| 32768) w, DevOp.readOp (64 ||| 32768)]) :=
  ⟨by decide, (c5_write_select_bit 64 (-150) _ (by decide)).1⟩

/-- Claim C1: evaluation of the code's read-then-write round trip at the
failing input n = 57, d = 2.  The code stores 56 (because
int(float(57 / 100) * 100) truncates 56.99999999999999289 toward zero),
while the round() prescribed by the spec for unscale recovers 57. -/
theorem c1_round_trip_eval :
    readWriteRoundTrip 57 2 = 56 ∧ readWriteRoundTripRounded 57 2 = 57 :=
  ⟨by decide, by decide⟩

lemma foldl_appendData (vs : List ℤ) : ∀ h : List ℤ, h ≠ [] →
    h.length + vs.length ≤ 1001 → vs.foldl appendData h = h ++ vs := by
  induction vs with
  | nil => intro h _ _; simp
  | cons v vs ih =>
    intro h hne hlen
    rw [List.foldl_cons]
    have hap : appendData h v = h ++ [v] := by
      unfold appendData
      rw [if_neg hne, if_pos (by simp at hlen; omega)]
    rw [hap, ih (h ++ [v]) (by simp) (by simp at hlen ⊢; omega)]
    simp

lemma foldl_appendData_nil (vs : List ℤ) (h : vs.length ≤ 1001) :
    vs.foldl appendData [] = vs := by
  cases vs with
  | nil => rfl
  | cons v vs =>
    rw [List.foldl_cons]
    have h0 : appendData [] v = [v] := by unfold appendData; rw [if_pos rfl]
    rw [h0, foldl_appendData vs [v] (by simp) (by simp at h ⊢; omega)]
    rfl

/-- Claim C2, amended: the channel history is capacity-bounded at 1001
samples (append preserves length ≤ 1001); appending up to 1001 values to
an empty history keeps every value in order with no eviction, and the
eviction of the oldest sample starts only with the 1002nd append, which
leaves the newest 1001 values in order. -/
theorem c2_buffer_capacity :
    (∀ (h : List ℤ) (v : ℤ), h.length ≤ 1001 → (appendData h v).length ≤ 1001) ∧
    (∀ vs : List ℤ, vs.length ≤ 1001 → vs.foldl appendData [] = vs) ∧
    (∀ vs : List ℤ, vs.length = 1002 → vs.foldl appendData [] = vs.drop 1) := by
  refine ⟨?_, foldl_appendData_nil, ?_⟩
  · intro h v hlen
    unfold appendData
    split_ifs with h1 h2 <;> simp_all
  · intro vs hlen
    cases vs with
    | nil => simp at hlen
    | cons v rest =>
      have hr : rest.length = 1001 := by simpa using hlen
      rcases rest.eq_nil_or_concat with hnil | ⟨init, w, hw⟩
      · rw [hnil] at hr; simp at hr
      · subst hw
        have hinit : init.length = 1000 := by
          have := List.length_concat init w
          omega
        rw [List.foldl_cons]
        have h0 : appendData [] v = [v] := by unfold appendData; rw [if_pos rfl]
        rw [h0, List.concat_eq_append, List.foldl_append,
          foldl_appendData init [v] (by simp) (by simp [hinit])]
        have ha : appendData (v :: init) w = init ++ [w] := by
          unfold appendData
          rw [if_neg (by simp), if_neg (by simp [hinit])]
          simp
        simpa using ha

/-- Claim C2, counterexample: appending 1001 values to an initially empty
history leaves all 1001 of them, in order and with the oldest still
present - not length 1000 with the oldest evicted as claimed. -/
theorem c2_counterexample :
    (List.map Int.ofNat (List.range 1001)).foldl appendData [] =
      List.map Int.ofNat (List.range 1001) ∧
    ((List.map Int.ofNat (List.range 1001)).foldl appendData []).length = 1001 := by
  have hl : (List.map Int.ofNat (List.range 1001)).length = 1001 := by
    rw [List.length_map, List.length_range]
  have h := foldl_appendData_nil (List.map Int.ofNat (List.range 1001)) (by omega)
  exact ⟨h, by rw [h, hl]⟩

theorem c2_witness :
    (List.map Int.ofNat (List.range 1002)).length = 1002 ∧
    (List.map Int.ofNat (List.range 1002)).foldl appendData [] =
      (List.map Int.ofNat (List.range 1002)).drop 1 := by
  have hl : (List.map Int.ofNat (List.range 1002)).length = 1002 := by
    rw [List.length_map, List.length_range]
  exact ⟨hl, c2_buffer_capacity.2.2 _ hl⟩

/-- Claim C3: when the bulk read of a polling tick fails, the tick changes
nothing: every channel history is left untouched, the engine stays in the
Polling state, and the following tick behaves exactly as if the failed
tick had never happened. -/
theorem c3_read_failure_atomic (read : ℕ → ℕ → Except Unit (List ℕ)) (e : Engine)
    (hp : e.polling = true)
    (hfail : readRanges read (tickRanges e.curves) = Except.error ()) :
    tick read e = e ∧ (tick read e).polling = true ∧
    (∀ read2, tick read2 (tick read e) = tick read2 e) := by
  have hupd : updateCurves read e.curves = e.curves := by
    unfold updateCurves
    split_ifs with hempty
    · rfl
    · rw [hfail]
  have ht : tick read e = e := by
    unfold tick
    rw [if_pos hp, hupd]
  exact ⟨ht, by rw [ht, hp], fun read2 => by rw [ht]⟩

theorem c3_witness :
    (Engine.mk true [Curve.mk [0] false true [5]]).polling = true ∧
    tick (fun _ _ => Except.error ()) (Engine.mk true [Curve.mk [0] false true [5]]) =
      Engine.mk true [Curve.mk [0] false true [5]] :=
  ⟨rfl, (c3_read_failure_atomic (fun _ _ => Except.error ())
    (Engine.mk true [Curve.mk [0] false true [5]]) rfl (by decide)).1⟩

lemma splitGaps_flatten : ∀ l : List ℕ, (splitGaps l).flatten = l
  | [] => rfl
  | [x] => rfl
  | x :: y :: rest => by
    have ih := splitGaps_flatten (y :: rest)
    simp only [splitGaps]
    cases hsg : splitGaps (y :: rest) with
    | nil => rw [hsg] at ih; simp at ih
    | cons g gs =>
      rw [hsg] at ih
      by_cases hgap : 3 < y - x
      · simp [hgap, ih]
      · simp [hgap]
        simpa using ih

lemma sorted_headD_le {g : List ℕ} (hs : g.Sorted (· ≤ ·)) {r : ℕ} (hr : r ∈ g) :
    g.headD 0 ≤ r := by
  cases g with
  | nil => simp at hr
  | cons a t =>
    simp only [List.headD_cons]
    rcases List.mem_cons.mp hr with h | h
    · exact h ▸ le_refl a
    · exact List.rel_of_sorted_cons hs r h

lemma sorted_le_getLastD : ∀ (g : List ℕ) (d r : ℕ), g.Sorted (· ≤ ·) → r ∈ g →
    r ≤ g.getLastD d
  | [], d, r => by simp
  | a :: t, d, r => fun hs hr => by
    rw [List.getLastD_cons]
    rcases List.mem_cons.mp hr with h | h
    · subst h
      cases t with
      | nil => simp [List.getLastD]
      | cons b t2 =>
        have hb : r ≤ b := List.rel_of_sorted_cons hs b (by simp)
        have h2 := sorted_le_getLastD (b :: t2) r b hs.of_cons (by simp)
        exact le_trans hb h2
    · exact sorted_le_getLastD t a r hs.of_cons h

lemma splitGaps_sorted {l : List ℕ} (hs : l.Sorted (· ≤ ·)) {g : List ℕ}
    (hg : g ∈ splitGaps l) : g.Sorted (· ≤ ·) := by
  have hsub : List.Sublist g ((splitGaps l).flatten) := List.sublist_flatten_of_mem hg
  rw [splitGaps_flatten] at hsub
  exact List.Pairwise.sublist hsub hs

/-- Claim C4: the aggregator maps the requested multiset 5, 6, 9, 20 to
exactly the ranges (5, 5) and (20, 1); with no active register requests a
tick issues no device read at all (the result does not even depend on the
device) while the aggregator itself maps an empty input to the empty
sequence; and the output ranges cover every requested address. -/
theorem c4_range_aggregator :
    aggregateRanges [5, 6, 9, 20] = [(5, 5), (20, 1)] ∧
    (aggregateRanges [] = [] ∧
      ∀ (read read2 : ℕ → ℕ → Except Unit (List ℕ)) (curves : List Curve),
        (curves.filter (fun c => c.active)).isEmpty = true →
        updateCurves read curves = curves ∧
          updateCurves read curves = updateCurves read2 curves) ∧
    (∀ (regs : List ℕ) (r : ℕ), r ∈ regs →
      ∃ p ∈ aggregateRanges regs, p.1 ≤ r ∧ r < p.1 + p.2) := by
  refine ⟨by decide, ⟨by decide, ?_⟩, ?_⟩
  · intro read read2 curves hemp
    unfold updateCurves
    rw [if_pos hemp]
    exact ⟨rfl, by rw [if_pos hemp]⟩
  · intro regs r hr
    unfold aggregateRanges
    have hperm := List.perm_insertionSort (· ≤ ·) regs
    have hmem : r ∈ List.insertionSort (· ≤ ·) regs := hperm.mem_iff.mpr hr
    have hsorted := List.sorted_insertionSort (· ≤ ·) regs
    rw [← splitGaps_flatten (List.insertionSort (· ≤ ·) regs)] at hmem
    rcases List.mem_flatten.mp hmem with ⟨g, hg, hrg⟩
    have hgs : g.Sorted (· ≤ ·) := splitGaps_sorted hsorted hg
    refine ⟨(g.headD 0, g.getLastD 0 + 1 - g.headD 0),
      List.mem_map.mpr ⟨g, hg, rfl⟩, sorted_headD_le hgs hrg, ?_⟩
    have h1 := sorted_headD_le hgs hrg
    have h2 := sorted_le_getLastD g 0 r hgs hrg
    omega

theorem c4_witness :
    7 ∈ [7] ∧ ∃ p ∈ aggregateRanges [7], p.1 ≤ 7 ∧ 7 < p.1 + p.2 :=
  ⟨by decide, c4_range_aggregator.2.2 [7] 7 (by decide)⟩

lemma processGroup_dev_indep (gainsOnly : Bool) (allow : List String)
    (dev dev2 : ℕ → ℤ → Bool) : ∀ rs : List ParamRecord,
    (processGroup gainsOnly allow dev rs).1.map (fun a => (a.1, a.2.1)) =
      (processGroup gainsOnly allow dev2 rs).1.map (fun a => (a.1, a.2.1)) ∧
    (processGroup gainsOnly allow dev rs).2 = (processGroup gainsOnly allow dev2 rs).2
  | [] => ⟨rfl, rfl⟩
  | p :: rest => by
    have ih := processGroup_dev_indep gainsOnly allow dev dev2 rest
    by_cases hskip : skipRecord gainsOnly allow p = true
    · simp only [processGroup, hskip, if_true]
      exact ih
    · simp only [processGroup, hskip, if_false, Bool.false_eq_true]
      cases hpr : parseRecord p with
      | none => exact ⟨rfl, rfl⟩
      | some pr =>
        obtain ⟨addr, x⟩ := pr
        simp only [List.map_cons]
        exact ⟨by rw [ih.1], ih.2⟩

lemma processXML_dev_indep (gainsOnly : Bool) (allow : List String)
    (dev dev2 : ℕ → ℤ → Bool) : ∀ groups : List (List ParamRecord),
    (processXML gainsOnly allow dev groups).1.map (fun a => (a.1, a.2.1)) =
      (processXML gainsOnly allow dev2 groups).1.map (fun a => (a.1, a.2.1)) ∧
    (processXML gainsOnly allow dev groups).2 = (processXML gainsOnly allow dev2 groups).2
  | [] => ⟨rfl, rfl⟩
  | g :: gs => by
    have ihg := processGroup_dev_indep gainsOnly allow dev dev2 g
    have ih := processXML_dev_indep gainsOnly allow dev dev2 gs
    simp only [processXML]
    by_cases hfl : (processGroup gainsOnly allow dev g).2 = true
    · rw [if_pos hfl, if_pos (by rw [← ihg.2]; exact hfl)]
      constructor
      · rw [List.map_append, List.map_append, ihg.1, ih.1]
      · exact ih.2
    · rw [if_neg hfl, if_neg (by rw [← ihg.2]; exact hfl)]
      exact ⟨ihg.1, rfl⟩

lemma processGroup_abort (gainsOnly : Bool) (allow : List String) (dev : ℕ → ℤ → Bool)
    (bad : ParamRecord) (post : List ParamRecord)
    (hbs : skipRecord gainsOnly allow bad = false) (hbp : parseRecord bad = none) :
    ∀ pre : List ParamRecord,
    (∀ p ∈ pre, skipRecord gainsOnly allow p = true ∨ parseRecord p ≠ none) →
    processGroup gainsOnly allow dev (pre ++ bad :: post) =
      ((processGroup gainsOnly allow dev pre).1, false)
  | [] => fun _ => by
    simp only [List.nil_append, processGroup, hbs, Bool.false_eq_true, if_false, hbp]
  | p :: pre => fun hall => by
    have ih := processGroup_abort gainsOnly allow dev bad post hbs hbp pre
      (fun q hq => hall q (by simp [hq]))
    rcases hall p (by simp) with hskip | hparse
    · simp only [List.cons_append, processGroup, hskip, if_true]
      exact ih
    · obtain ⟨pr, hpr⟩ := Option.ne_none_iff_exists'.mp hparse
      obtain ⟨addr, x⟩ := pr
      by_cases hskip : skipRecord gainsOnly allow p = true
      · simp only [List.cons_append, processGroup, hskip, if_true]
        exact ih
      · simp only [List.cons_append, processGroup, hskip, Bool.false_eq_true, if_false, hpr]
        rw [List.append_eq, ih]

/-- Claim C7, amended: during a bulk parameter load the processing of
later records and groups is entirely independent of device write/read
failures (a failed device write is reported and the batch continues), but
a record whose Address or Value field is missing or unparsable raises
outside the per-record try-block and aborts the whole remaining batch:
the records after it, and all later groups, are not processed. -/
theorem c7_batch_error_policy (gainsOnly : Bool) (allow : List String) :
    (∀ (dev dev2 : ℕ → ℤ → Bool) (groups : List (List ParamRecord)),
      (processXML gainsOnly allow dev groups).1.map (fun a => (a.1, a.2.1)) =
        (processXML gainsOnly allow dev2 groups).1.map (fun a => (a.1, a.2.1)) ∧
      (processXML gainsOnly allow dev groups).2 =
        (processXML gainsOnly allow dev2 groups).2) ∧
    (∀ (dev : ℕ → ℤ → Bool) (pre post : List ParamRecord) (bad : ParamRecord)
      (gs : List (List ParamRecord)),
      skipRecord gainsOnly allow bad = false → parseRecord bad = none →
      (∀ p ∈ pre, skipRecord gainsOnly allow p = true ∨ parseRecord p ≠ none) →
      processXML gainsOnly allow dev ((pre ++ bad :: post) :: gs) =
        ((processGroup gainsOnly allow dev pre).1, false)) := by
  refine ⟨fun dev dev2 groups => processXML_dev_indep gainsOnly allow dev dev2 groups, ?_⟩
  intro dev pre post bad gs hbs hbp hall
  simp only [processXML]
  rw [processGroup_abort gainsOnly allow dev bad post hbs hbp pre hall]
  simp

/-- Claim C7, counterexample: a batch of one group holding an unparsable
record followed by a perfectly good one produces no write at all and
aborts, although the good record alone would be written; processing does
not continue after the unparsable record. -/
theorem c7_counterexample :
    processXML false [] (fun _ _ => true)
      [[ParamRecord.mk none (some 64) none none,
        ParamRecord.mk none (some 65) (some (PyFloat.mk false 5 0)) none]] = ([], false) ∧
    processXML false [] (fun _ _ => true)
      [[ParamRecord.mk none (some 65) (some (PyFloat.mk false 5 0)) none]] =
      ([(32833, 5, true)], true) :=
  ⟨by decide, by decide⟩

theorem c7_witness :
    skipRecord false [] (ParamRecord.mk none (some 64) none none) = false ∧
    parseRecord (ParamRecord.mk none (some 64) none none) = none ∧
    processXML false [] (fun _ _ => false)
      [[ParamRecord.mk none (some 64) none none,
        ParamRecord.mk none (some 66) (some (PyFloat.mk false 7 0)) none]] =
      ((processGroup false [] (fun _ _ => false) []).1, false) :=
  ⟨by decide, by decide,
    (c7_batch_error_policy false []).2 (fun _ _ => false) []
      [ParamRecord.mk none (some 66) (some (PyFloat.mk false 7 0)) none]
      (ParamRecord.mk none (some 64) none none) [] (by decide) (by decide) (by simp)⟩

/-- Claim C8, amended: with the gains-only filter enabled, a record is
skipped (contributing no device operation whatsoever) exactly when it has
a Code element whose text is not in the caller-supplied allow-list; a
record whose code is in the list, or which has NO Code element at all,
proceeds to the device write.  (The claim's "written iff its code is in
the allow-list" fails for records without a Code element.) -/
theorem c8_gains_filter (allow : List String) (dev : ℕ → ℤ → Bool) (p : ParamRecord)
    (rest : List ParamRecord) :
    (skipRecord true allow p = true →
      processGroup true allow dev (p :: rest) = processGroup true allow dev rest) ∧
    (skipRecord true allow p = true ↔ ∃ c, p.code = some c ∧ ¬ c ∈ allow) ∧
    (skipRecord true allow p = false → ∀ addr x, parseRecord p = some (addr, x) →
      processGroup true allow dev (p :: rest) =
        ((addr ||| 32768, xmlWord x p.decimalPlace,
          decide (0 ≤ xmlWord x p.decimalPlace ∧ xmlWord x p.decimalPlace ≤ 65535) &&
            dev (addr ||| 32768) (xmlWord x p.decimalPlace)) ::
          (processGroup true allow dev rest).1,
          (processGroup true allow dev rest).2)) := by
  refine ⟨?_, ?_, ?_⟩
  · intro hskip
    simp only [processGroup, hskip, if_true]
  · unfold skipRecord
    cases hc : p.code with
    | none => simp
    | some c => simp [List.elem_iff]
  · intro hskip addr x hpr
    simp only [processGroup, hskip, Bool.false_eq_true, if_false, hpr]

theorem c8_witness :
    skipRecord true ["P05"]
      (ParamRecord.mk (some "P09") (some 64) (some (PyFloat.mk false 5 0)) none) = true ∧
    processGroup true ["P05"] (fun _ _ => true)
      [ParamRecord.mk (some "P09") (some 64) (some (PyFloat.mk false 5 0)) none] =
      processGroup true ["P05"] (fun _ _ => true) [] :=
  ⟨by decide,
    (c8_gains_filter ["P05"] (fun _ _ => true)
      (ParamRecord.mk (some "P09") (some 64) (some (PyFloat.mk false 5 0)) none) []).1
      (by decide)⟩

/-- Claim C8, counterexample: with the filter enabled and allow-list
containing only P05, a record WITHOUT a Code element is written anyway
(its code is certainly not in the allow-list), refuting "written iff its
identifying code is in the allow-list". -/
theorem c8_counterexample :
    processGroup true ["P05"] (fun _ _ => true)
      [ParamRecord.mk none (some 64) (some (PyFloat.mk false 5 0)) none] =
      ([(32832, 5, true)], true) :=
  by decide
